import Mathlib

/-!
Shallow embedding of the resumable batch-enrichment pipeline of
`src/data_processing/process_all_entries.py`, together with theorems that
settle the specification's claims about it.

Modelling conventions:
* Python dicts holding JSON objects are modelled as association lists or
  structures; Python `None` as `Option.none`.
* Exceptions that can escape the modelled code are made explicit with
  `Except PyErr`; `KeyError` (missing dict key), `ValueError` (`range` with a
  zero step) and `AttributeError` (`.items()` on a non-dict) are the ones the
  modelled paths can raise.
* The output directory is modelled by `FS`: the per-year "complete" file
  `warhol_{year}_processed.json` and the interim files
  `warhol_{year}_batch_{k}.json`, the latter keyed by the batch number parsed
  from the file name, with `none` content standing for a file that exists but
  cannot be read or parsed.
* The two OpenAI calls are the system boundary: a `Services` value gives, for
  each batch, the value the retry wrapper (`analyze_entries_batch` /
  `get_embeddings_batch`) ultimately returns to `process_year_entries` —
  `none` for a `None` result after retries, `some` for a parsed result list.
* Floating point contents (emotion intensities, embedding coordinates) are
  carried as integers; nothing in the claims depends on float arithmetic,
  only on how values are routed, paired and stored.
-/

namespace Warhol

/-- A parsed journal record as produced by the parsing stage and consumed by
`process_all_entries.py` (fields used by the pipeline: `id`, `date`, `text`). -/
structure Record where
  id : String
  date : String
  text : String
deriving DecidableEq

/-- One element of the analysis array returned by the annotation service.
`idField = none` models a JSON object that lacks the `"id"` key, so that the
`e["id"]` lookup of line 285 raises `KeyError`. -/
structure AnalysisResult where
  idField : Option String
  emotions : List (String × Int)
  topics : List String
  people : List String
  places : List String
deriving DecidableEq

/-- An embedding vector (`get_embeddings_batch` result element). -/
abbrev Embedding := List Int

/-- An enriched record: the source record's fields plus the four derived
fields attached at lines 298-302. -/
structure Enriched where
  entry : Record
  emotions : List (String × Int)
  topics : List String
  people : List String
  places : List String
  embedding : Embedding
deriving DecidableEq

/-- The Python exceptions the modelled code paths can raise. -/
inductive PyErr where
  | keyError
  | valueError
  | attributeError
deriving DecidableEq

/-- The external service boundary: what `analyze_entries_batch` and
`get_embeddings_batch` return to `process_year_entries` for a given batch
(`none` models the Python `None` returned after exhausting retries). -/
structure Services where
  analyze : List Record → Option (List AnalysisResult)
  embed : List String → Option (List Embedding)

/-- Line 285: `next((e for e in analysis_results if str(e["id"]) == str(entry["id"])), None)`.
The generator evaluates `e["id"]` for each element until a match is found, so
an element that lacks the `"id"` key raises `KeyError` before any later
element can match. -/
def findById (results : List AnalysisResult) (rid : String) : Except PyErr (Option AnalysisResult) :=
  match results with
  | [] => .ok none
  | a :: rest =>
    match a.idField with
    | none => .error .keyError
    | some i => if i = rid then .ok (some a) else findById rest rid

/-- Lines 298-302: copy the record and attach the four derived fields. -/
def enrich (e : Record) (a : AnalysisResult) (v : Embedding) : Enriched :=
  ⟨e, a.emotions, a.topics, a.people, a.places, v⟩

/-- Lines 287-295: the analysis object used for the record at position
`idx` — the id match when there is one, else the positional fallback
`analysis_results[idx]` when `idx` is in range, else `none` (the record is
skipped by `continue`). -/
def chooseAnalysis (found : Option AnalysisResult)
    (analysisResults : List AnalysisResult) (idx : Nat) : Option AnalysisResult :=
  match found with
  | some a => some a
  | none => analysisResults[idx]?

/-- Lines 283-306: the per-record combine loop.  For the record at position
`idx`: look up its analysis by id (possibly raising `KeyError`); if no id
matches, fall back to `analysis_results[idx]` when in range, else skip the
record; finally include the record only when `idx < len(batch_embeddings)`,
pairing it with `batch_embeddings[idx]`. -/
def combineGo (analysisResults : List AnalysisResult) (embs : List Embedding) :
    List Record → Nat → Except PyErr (List Enriched)
  | [], _ => .ok []
  | e :: rest, idx =>
    match findById analysisResults e.id with
    | .error err => .error err
    | .ok found =>
      match chooseAnalysis found analysisResults idx with
      | none => combineGo analysisResults embs rest (idx + 1)
      | some a =>
        match combineGo analysisResults embs rest (idx + 1), embs[idx]? with
        | .error err, _ => .error err
        | .ok tail, some v => .ok (enrich e a v :: tail)
        | .ok tail, none => .ok tail

/-- Lines 283-306 starting at index 0. -/
def combineBatch (analysisResults : List AnalysisResult) (embs : List Embedding)
    (batch : List Record) : Except PyErr (List Enriched) :=
  combineGo analysisResults embs batch 0

/-- Lines 259-306: one batch of the per-year loop up to (not including) the
interim write.  `.ok none` is the "skipping batch" outcome of lines 262-265
and 274-277 (`if not analysis_results` / `if not batch_embeddings`, which
treat `None` and the empty list alike); `.ok (some l)` is `batch_processed`. -/
def processBatch (svc : Services) (current_batch : List Record) :
    Except PyErr (Option (List Enriched)) :=
  match svc.analyze current_batch with
  | none => .ok none
  | some analysisResults =>
    if analysisResults.isEmpty then .ok none
    else
      match svc.embed (current_batch.map Record.text) with
      | none => .ok none
      | some batch_embeddings =>
        if batch_embeddings.isEmpty then .ok none
        else (combineBatch analysisResults batch_embeddings current_batch).map some

/-- The output directory, restricted to one year's files.  `processedFile` is
`warhol_{year}_processed.json` (the complete marker), `batchFiles` are the
`warhol_{year}_batch_{k}.json` files keyed by the batch number parsed from
their names; a `none` content is a file that exists but cannot be read or
parsed. -/
structure FS where
  processedFile : Option (List Enriched)
  batchFiles : List (Nat × Option (List Enriched))
deriving DecidableEq

/-- Lines 182-184: `is_year_processed`. -/
def is_year_processed (fs : FS) : Bool :=
  fs.processedFile.isSome

/-- Lines 187-195: `load_processed_year` (on any read error it returns `[]`). -/
def load_processed_year (fs : FS) : List Enriched :=
  fs.processedFile.getD []

/-- Lines 198-211: `find_last_batch` — the maximum batch number among the
existing batch files, `0` when there are none. -/
def find_last_batch (fs : FS) : Nat :=
  (fs.batchFiles.map Prod.fst).foldr max 0

/-- Lines 229-233: open and parse `warhol_{year}_batch_{k}.json`; `none` when
the file is absent or raises on read/parse. -/
def loadBatchFile (fs : FS) (k : Nat) : Option (List Enriched) :=
  match fs.batchFiles.find? (fun p => p.1 == k) with
  | some p => p.2
  | none => none

/-- Lines 312-314: write the interim file for `batch_num` (overwriting it if
it already exists). -/
def writeBatchFile (fs : FS) (k : Nat) (es : List Enriched) : FS :=
  { fs with batchFiles :=
      if fs.batchFiles.any (fun p => p.1 == k) then
        fs.batchFiles.map (fun p => if p.1 == k then (k, some es) else p)
      else fs.batchFiles ++ [(k, some es)] }

/-- Lines 323-325: write `warhol_{year}_processed.json`. -/
def writeProcessedFile (fs : FS) (es : List Enriched) : FS :=
  { fs with processedFile := some es }

/-- Lines 222-238: the resume scan — `(last_batch, processed_entries)` after
the `if resume:` block.  A read/parse failure of the found batch file resets
both (lines 235-238). -/
def resumeState (fs : FS) (resume : Bool) : Nat × List Enriched :=
  if resume then
    let lb := find_last_batch fs
    if 0 < lb then
      match loadBatchFile fs lb with
      | some es => (lb, es)
      | none => (0, [])
    else (0, [])
  else (0, [])

/-- The index sequence of `range(0, n, bs)` for a positive step `bs`
(line 249). -/
def batchIdxs (n bs : Nat) : List Nat :=
  (List.range ((n + bs - 1) / bs)).map (· * bs)

/-- Lines 249-318: one iteration of the batch loop, over the state
`(output directory, processed_entries)`.  `i` is the offset into
`remaining_entries`; a skipped batch leaves the state unchanged, a combined
batch extends `processed_entries` and writes the interim file for
`batch_num = (start_idx + i) // batch_size + 1` with the whole accumulator. -/
def batchStep (svc : Services) (start_idx bs : Nat) (remaining : List Record)
    (st : FS × List Enriched) (i : Nat) : Except PyErr (FS × List Enriched) :=
  let current_batch := (remaining.drop i).take bs
  match processBatch svc current_batch with
  | .error err => .error err
  | .ok none => .ok st
  | .ok (some batch_processed) =>
    let processed := st.2 ++ batch_processed
    .ok (writeBatchFile st.1 ((start_idx + i) / bs + 1) processed, processed)

/-- Lines 249-329 for a positive batch size: the batch loop over
`remaining = year_entries[start_idx:]` followed by the unconditional write of
`warhol_{year}_processed.json`. -/
def runYearLoop (svc : Services) (fs : FS) (remaining : List Record)
    (start_idx bs : Nat) (acc : List Enriched) : Except PyErr (FS × List Enriched) :=
  match (batchIdxs remaining.length bs).foldlM (batchStep svc start_idx bs remaining) (fs, acc) with
  | .error err => .error err
  | .ok st => .ok (writeProcessedFile st.1 st.2, st.2)

/-- Lines 214-329: `process_year_entries`.  Returns the new state of the
year's files and the function's return value.  `batch_size = 0` makes
`range(0, len(remaining_entries), batch_size)` raise `ValueError`; a negative
`batch_size` makes that range empty, so the loop body never runs and only the
final write happens. -/
def process_year_entries (svc : Services) (fs : FS) (year_entries : List Record)
    (batch_size : Int) (resume : Bool) : Except PyErr (FS × List Enriched) :=
  if resume && is_year_processed fs then .ok (fs, load_processed_year fs)
  else
    let rs := resumeState fs resume
    if batch_size = 0 then .error .valueError
    else if batch_size < 0 then .ok (writeProcessedFile fs rs.2, rs.2)
    else
      let bs := batch_size.toNat
      runYearLoop svc fs (year_entries.drop (rs.1 * bs)) (rs.1 * bs) bs rs.2

/-- The ids of a list of enriched entries (`[entry["id"] for entry in ...]`). -/
def entryIds (es : List Enriched) : List String :=
  es.map (fun e => e.entry.id)

/-- Lines 423-426: one step of the cumulative merge, over the pair
`(all_processed_entries, processed_ids)`. -/
def cumulStep (st : List Enriched × List String) (e : Enriched) : List Enriched × List String :=
  if e.entry.id ∈ st.2 then st else (st.1 ++ [e], st.2 ++ [e.entry.id])

/-- Lines 421-426: merge a year's results into the cumulative accumulator,
skipping entries whose id is already present. -/
def addYearToCumulative (all_processed year_processed : List Enriched) : List Enriched :=
  (year_processed.foldl cumulStep (all_processed, entryIds all_processed)).1

/-- Line 57: `entry["date"].split("-")[0]`. -/
def yearOf (date : String) : String :=
  (date.splitOn "-").headD ""

/-- Lines 58-60: insert a record into the year dict (Python dicts keep
insertion order and have unique keys). -/
def addToGroups : List (String × List Record) → String → Record → List (String × List Record)
  | [], y, e => [(y, [e])]
  | (k, l) :: rest, y, e =>
    if k = y then (k, l ++ [e]) :: rest else (k, l) :: addToGroups rest y e

/-- Lines 54-61: `group_entries_by_year`, as an insertion-ordered association
list from year to the year's records. -/
def group_entries_by_year (entries : List Record) : List (String × List Record) :=
  entries.foldl (fun gs e => addToGroups gs (yearOf e.date) e) []

/-- Look up a year's group (`entries_by_year[year]`, `[]` when absent); dict
lookup on an insertion-ordered association list with unique keys. -/
def groupGet : List (String × List Record) → String → List Record
  | [], _ => []
  | (k, l) :: rest, y => if k = y then l else groupGet rest y

/-- The batch slices the loop of lines 249-251 takes for a fresh run:
`remaining_entries[i:i+batch_size]` for each `i` in `range(0, n, batch_size)`. -/
def sliceBatches (l : List Record) (bs : Nat) : List (List Record) :=
  (batchIdxs l.length bs).map (fun i => (l.drop i).take bs)

/-- Line 341: `sorted(entries_by_year.keys())` (Python's sort; on the
duplicate-free key list any correct ascending sort yields the same list). -/
def pySorted (l : List String) : List String :=
  l.insertionSort (· ≤ ·)

/-- Modelled from the spec: "the stable year-sorted ordering of the original
collection" — for each year in ascending order, that year's records in input
order.  This is the spec-side reconstruction target of the partition
completeness property; the theorem for C8 compares the code-side grouping and
slicing against it. -/
def yearSortedStable (entries : List Record) : List Record :=
  ((pySorted ((group_entries_by_year entries).map Prod.fst)).map
    (fun y => entries.filter (fun e => yearOf e.date == y))).flatten

/-- A parsed JSON value, as far as the response normalization of
`analyze_entries_batch` observes it: an array, an object (association list of
fields), or anything else (scalars, carried opaquely). -/
inductive Json where
  | arr : List Json → Json
  | obj : List (String × Json) → Json
  | prim : String → Json

/-- `key in result` / `result[key]` on a parsed JSON object. -/
def jLookup (fields : List (String × Json)) (k : String) : Option Json :=
  (fields.find? (fun p => p.1 == k)).map Prod.snd

/-- `isinstance(value, list)`. -/
def isArr : Json → Bool
  | .arr _ => true
  | _ => false

/-- Lines 129-133: scan `result.items()` in order for the first list value. -/
def firstArrayField (fields : List (String × Json)) : Option Json :=
  (fields.find? (fun p => isArr p.2)).map Prod.snd

/-- Lines 119-135: normalize the parsed response.  A dict is probed for
`"results"`, then (after the `isinstance(result, list)` test, which a dict
never passes) `"data"`, then `"entries"`; failing those, its values are
scanned for the first list, and `[]` is returned if none is found.  A bare
list is returned as-is.  Any other value reaches the `result.items()` loop
and raises `AttributeError`. -/
def normalize_response : Json → Except PyErr Json
  | .obj fields =>
    match jLookup fields "results" with
    | some v => .ok v
    | none =>
      match jLookup fields "data" with
      | some v => .ok v
      | none =>
        match jLookup fields "entries" with
        | some v => .ok v
        | none =>
          match firstArrayField fields with
          | some v => .ok v
          | none => .ok (.arr [])
  | .arr xs => .ok (.arr xs)
  | .prim _ => .error .attributeError

/-- The outcome of one attempt of the retry loop of `analyze_entries_batch`:
the API call raised (transport failure), the reply was not valid JSON, or the
reply parsed to a JSON value. -/
inductive Attempt where
  | transportErr
  | parseErr
  | parsed : Json → Attempt

/-- Lines 97-155: the retry loop of `analyze_entries_batch`, driven by the
outcome of each successive attempt (the list has length `max_retries`).
A transport or JSON-parse failure backs off and retries while attempts
remain, else returns `None`; a parsed reply is normalized and returned at
once — including the empty-sequence case — except that an `AttributeError`
raised inside normalization is caught by the outer handler and retried like
a transport failure. -/
def analyzeRetryLoop : List Attempt → Option Json
  | [] => none
  | .transportErr :: rest => if rest.isEmpty then none else analyzeRetryLoop rest
  | .parseErr :: rest => if rest.isEmpty then none else analyzeRetryLoop rest
  | .parsed j :: rest =>
    match normalize_response j with
    | .ok v => some v
    | .error _ => if rest.isEmpty then none else analyzeRetryLoop rest

/-! Concrete fixtures for counterexamples and witnesses. -/

/-- Fixture record with id "0". -/
def rA : Record := ⟨"0", "1976-01-01", "t0"⟩

/-- Fixture record with id "1". -/
def rB : Record := ⟨"1", "1976-01-02", "t1"⟩

/-- Fixture record with id "2". -/
def rC : Record := ⟨"2", "1976-01-03", "t2"⟩

/-- Fixture record with id "3", in a different year (1977). -/
def rD : Record := ⟨"3", "1977-02-02", "t3"⟩

/-- Fixture analysis object carrying id "0". -/
def aA : AnalysisResult := ⟨some "0", [("joy", 1)], ["art"], ["Bob"], ["NYC"]⟩

/-- Fixture analysis object carrying id "1". -/
def aB : AnalysisResult := ⟨some "1", [("joy", 0)], ["business"], [], []⟩

/-- Fixture enriched record for `rA` (embedding `[2]`, the length of "t0"). -/
def eA : Enriched := enrich rA aA [2]

/-- Fixture enriched record for `rB`. -/
def eB : Enriched := enrich rB aB [2]

/-- Services whose calls always come back as `None` after retries. -/
def svcNone : Services := ⟨fun _ => none, fun _ => none⟩

/-- Services where analysis matches each record by id, but the embedding call
returns a single vector regardless of the batch size. -/
def svcShortEmbed : Services :=
  ⟨fun batch => some (batch.map (fun r => ⟨some r.id, [], [], [], []⟩)),
   fun _ => some [[7]]⟩

/-- Three analysis objects in batch order, each lacking the `"id"` field. -/
def noIdResults : List AnalysisResult :=
  [⟨none, [("joy", 1)], ["art"], [], []⟩,
   ⟨none, [("joy", 0)], ["business"], [], []⟩,
   ⟨none, [("joy", 1)], ["travel"], [], []⟩]

/-- Services whose analysis preserves batch order but drops every `"id"`. -/
def svcNoIds : Services :=
  ⟨fun _ => some noIdResults, fun texts => some (texts.map (fun _ => [0]))⟩

/-- Services for the C3 scenario: annotation succeeds for the batch with ids
`["0","1"]` and comes back `None` for the batch `["2"]`; the embedding call
always succeeds, one vector per text in order. -/
def svcC3 : Services :=
  ⟨fun batch => if batch.map Record.id = ["0", "1"] then some [aA, aB] else none,
   fun texts => some (texts.map (fun t => [(t.length : Int)]))⟩

/-! Theorems. -/

/-- Every record the combine loop outputs is paired strictly positionally:
its source record sits at some position `j` of the batch suffix and its
embedding is `batch_embeddings[idx + j]`. -/
lemma combineGo_sound (analysisResults : List AnalysisResult) (embs : List Embedding) :
    ∀ (batch : List Record) (idx : Nat) (out : List Enriched),
      combineGo analysisResults embs batch idx = .ok out →
      ∀ e ∈ out, ∃ j : Nat, batch[j]? = some e.entry ∧ embs[idx + j]? = some e.embedding := by
  intro batch
  induction batch with
  | nil =>
    intro idx out h e he
    simp only [combineGo] at h
    cases h
    simp at he
  | cons r rest ih =>
    intro idx out h e he
    have shift : ∀ tail : List Enriched,
        combineGo analysisResults embs rest (idx + 1) = .ok tail → e ∈ tail →
        ∃ j : Nat, (r :: rest)[j]? = some e.entry ∧ embs[idx + j]? = some e.embedding := by
      intro tail hr het
      obtain ⟨j, hj1, hj2⟩ := ih (idx + 1) tail hr e het
      refine ⟨j + 1, ?_, ?_⟩
      · simpa using hj1
      · rw [show idx + (j + 1) = idx + 1 + j by omega]
        exact hj2
    simp only [combineGo] at h
    cases hf : findById analysisResults r.id with
    | error err => simp only [hf] at h; cases h
    | ok found =>
      simp only [hf] at h
      cases hc : chooseAnalysis found analysisResults idx with
      | none =>
        simp only [hc] at h
        exact shift out h he
      | some a =>
        simp only [hc] at h
        cases hr : combineGo analysisResults embs rest (idx + 1) with
        | error err => simp only [hr] at h; cases h
        | ok tail =>
          simp only [hr] at h
          cases hv : embs[idx]? with
          | some v =>
            simp only [hv] at h
            have hout : enrich r a v :: tail = out := by
              injection h
            have he' : e ∈ enrich r a v :: tail := by rw [hout]; exact he
            rcases List.mem_cons.mp he' with he1 | het
            · refine ⟨0, ?_, ?_⟩
              · simp [he1, enrich]
              · rw [Nat.add_zero]
                rw [hv, he1]
                simp [enrich]
            · exact shift tail hr het
          | none =>
            simp only [hv] at h
            have hout : tail = out := by injection h
            rw [← hout] at he
            exact shift tail hr he

/-- C1 counterexample: a batch of two records whose embedding call returns a
single vector (length 1 ≠ 2).  `process_year_entries` does not skip the
batch: one enriched record is produced, not zero. -/
theorem c1_counterexample :
    svcShortEmbed.embed ([rA, rB].map Record.text) = some [[7]]
    ∧ processBatch svcShortEmbed [rA, rB]
        = .ok (some [enrich rA ⟨some "0", [], [], [], []⟩ [7]])
    ∧ processBatch svcShortEmbed [rA, rB] ≠ .ok (some [])
    ∧ processBatch svcShortEmbed [rA, rB] ≠ .ok none := by
  have hv : processBatch svcShortEmbed [rA, rB]
      = .ok (some [enrich rA ⟨some "0", [], [], [], []⟩ [7]]) := rfl
  refine ⟨rfl, rfl, ?_, ?_⟩ <;> rw [hv] <;> simp

/-- C1 (amended): only a `None` or empty embedding result skips the whole
batch; a non-empty embedding result of mismatched length does not skip it —
instead each output record is paired strictly positionally (record at
position `j` with embedding `j`), so records at positions beyond the
embedding sequence are dropped individually and no record is paired with an
embedding at a wrong position. -/
theorem c1_skip_and_positional_pairing (svc : Services) (batch : List Record)
    (embs : List Embedding) (out : List Enriched) :
    ((svc.embed (batch.map Record.text) = none ∨
      svc.embed (batch.map Record.text) = some []) →
        processBatch svc batch = .ok none)
    ∧ (processBatch svc batch = .ok (some out) →
        svc.embed (batch.map Record.text) = some embs →
        ∀ e ∈ out, ∃ j : Nat, batch[j]? = some e.entry ∧ embs[j]? = some e.embedding) := by
  constructor
  · intro h
    cases ha : svc.analyze batch with
    | none => simp [processBatch, ha]
    | some ar =>
      cases ar with
      | nil => simp [processBatch, ha]
      | cons a l => rcases h with h | h <;> simp [processBatch, ha, h]
  · intro hp he e heo
    cases ha : svc.analyze batch with
    | none => simp [processBatch, ha] at hp
    | some ar =>
      cases ar with
      | nil => simp [processBatch, ha] at hp
      | cons a l =>
        simp only [processBatch, ha, List.isEmpty_cons, he] at hp
        cases embs with
        | nil => simp at hp
        | cons v vs =>
          simp only [List.isEmpty_cons] at hp
          cases hc : combineBatch (a :: l) (v :: vs) batch with
          | error err => simp [hc, Except.map] at hp
          | ok lst =>
            simp only [hc, Except.map] at hp
            have hl : lst = out := by
              simpa using hp
            subst hl
            have hmain := combineGo_sound (a :: l) (v :: vs) batch 0 lst hc e heo
            simpa using hmain

/-- C1 (amended) witness: the skip half at a concrete service whose embedding
call returns `None`. -/
theorem c1_skip_witness :
    processBatch svcNone [rA] = .ok none :=
  (c1_skip_and_positional_pairing svcNone [rA] [] []).1 (Or.inl rfl)

/-- C2: evaluating the merge of lines 283-306 on a batch of three records and
an analysis array that preserves order but lacks every `"id"` field: the
lookup `e["id"]` raises `KeyError`, so the whole batch (and with it the run)
aborts instead of falling back to positional correlation. -/
theorem c2_missing_id_keyError :
    combineBatch noIdResults [[0], [0], [0]] [rA, rB, rC] = .error .keyError
    ∧ processBatch svcNoIds [rA, rB, rC] = .error .keyError := ⟨rfl, rfl⟩

/-- C3 counterexample: in the scenario (batch size 2, ids ["0","1","2"],
batch 1 succeeds, annotation of batch 2 fails), the run does end with
enriched records for ids 0 and 1 only — but `warhol_{year}_processed.json`,
the COMPLETE marker, IS written at the end of the run, contradicting the
claim that no marker exists until batch 2 is retried. -/
theorem c3_counterexample :
    process_year_entries svcC3 ⟨none, []⟩ [rA, rB, rC] 2 true
      = .ok (⟨some [eA, eB], [(1, some [eA, eB])]⟩, [eA, eB])
    ∧ (⟨some [eA, eB], [(1, some [eA, eB])]⟩ : FS).processedFile ≠ none := by
  refine ⟨rfl, ?_⟩
  simp

/-- C3 (amended): the scenario run produces enriched records for ids 0 and 1
only, persists them in the batch-1 interim file, and also writes the COMPLETE
marker containing exactly those two records at the end of the run; hence a
future resume run loads the marker and never retries batch 2. -/
theorem c3_scenario :
    process_year_entries svcC3 ⟨none, []⟩ [rA, rB, rC] 2 true
      = .ok (⟨some [eA, eB], [(1, some [eA, eB])]⟩, [eA, eB])
    ∧ entryIds [eA, eB] = ["0", "1"]
    ∧ loadBatchFile ⟨some [eA, eB], [(1, some [eA, eB])]⟩ 1 = some [eA, eB]
    ∧ (∀ (svc : Services) (ye : List Record) (bsz : Int),
        process_year_entries svc ⟨some [eA, eB], [(1, some [eA, eB])]⟩ ye bsz true
          = .ok (⟨some [eA, eB], [(1, some [eA, eB])]⟩, [eA, eB])) := by
  refine ⟨rfl, rfl, rfl, fun svc ye bsz => rfl⟩

/-- C4 counterexample: a negative batch size is not rejected — the run
completes without error and even marks the year processed (with an empty
accumulator), instead of failing fatally with a configuration error. -/
theorem c4_counterexample :
    process_year_entries svcNone ⟨none, []⟩ [rA] (-1) false = .ok (⟨some [], []⟩, [])
    ∧ is_year_processed ⟨some [], []⟩ = true := ⟨rfl, rfl⟩

/-- C4 (amended): a batch size of exactly 0 does abort the run before any
service call (`range` raises `ValueError`, uncaught below `process_entries`);
a negative batch size is not rejected: the loop runs zero iterations and the
COMPLETE marker is written with the resume-loaded accumulator.  Neither
outcome depends on the services, i.e. no annotation or embedding call is
made. -/
theorem c4_batch_size_validation (svc : Services) (fs : FS) (ye : List Record)
    (resume : Bool) (bsz : Int)
    (h : (resume && is_year_processed fs) = false) (hneg : bsz < 0) :
    process_year_entries svc fs ye 0 resume = .error .valueError
    ∧ process_year_entries svc fs ye bsz resume
        = .ok (writeProcessedFile fs (resumeState fs resume).2, (resumeState fs resume).2) := by
  constructor
  · unfold process_year_entries
    rw [h]
    simp
  · unfold process_year_entries
    rw [h]
    have h0 : ¬ (bsz = 0) := by omega
    simp [h0, hneg]

/-- C4 (amended) witness. -/
theorem c4_batch_size_witness :
    process_year_entries svcNone ⟨none, []⟩ [rA] 0 false = .error .valueError
    ∧ process_year_entries svcNone ⟨none, []⟩ [rA] (-2) false
        = .ok (writeProcessedFile ⟨none, []⟩ (resumeState ⟨none, []⟩ false).2,
               (resumeState ⟨none, []⟩ false).2) :=
  c4_batch_size_validation svcNone ⟨none, []⟩ [rA] false (-2) rfl (by decide)

/-- The id list carried by the cumulative merge always mirrors the ids of the
accumulator it builds. -/
lemma foldl_cumulStep_ids (ys : List Enriched) :
    ∀ st : List Enriched × List String, st.2 = entryIds st.1 →
      (ys.foldl cumulStep st).2 = entryIds (ys.foldl cumulStep st).1 := by
  induction ys with
  | nil => intro st h; simpa using h
  | cons y tl ih =>
    intro st h
    simp only [List.foldl_cons]
    by_cases hm : y.entry.id ∈ st.2
    · rw [show cumulStep st y = st from by simp [cumulStep, hm]]
      exact ih st h
    · rw [show cumulStep st y = (st.1 ++ [y], st.2 ++ [y.entry.id]) from by
        simp [cumulStep, hm]]
      refine ih _ ?_
      simp [entryIds, h]

/-- The cumulative merge never introduces a duplicate id. -/
lemma foldl_cumulStep_nodup (ys : List Enriched) :
    ∀ st : List Enriched × List String, st.2.Nodup → (ys.foldl cumulStep st).2.Nodup := by
  induction ys with
  | nil => intro st h; simpa using h
  | cons y tl ih =>
    intro st h
    simp only [List.foldl_cons]
    by_cases hm : y.entry.id ∈ st.2
    · rw [show cumulStep st y = st from by simp [cumulStep, hm]]
      exact ih st h
    · rw [show cumulStep st y = (st.1 ++ [y], st.2 ++ [y.entry.id]) from by
        simp [cumulStep, hm]]
      refine ih _ ?_
      simp [List.nodup_append, h, hm]

/-- The cumulative merge only appends: the previous accumulator is kept
verbatim as a prefix and everything appended comes from the year's list. -/
lemma foldl_cumulStep_append (ys : List Enriched) :
    ∀ st : List Enriched × List String, ∃ extra : List Enriched,
      (ys.foldl cumulStep st).1 = st.1 ++ extra ∧ ∀ e ∈ extra, e ∈ ys := by
  induction ys with
  | nil => intro st; exact ⟨[], by simp, by simp⟩
  | cons y tl ih =>
    intro st
    simp only [List.foldl_cons]
    by_cases hm : y.entry.id ∈ st.2
    · obtain ⟨extra, hx1, hx2⟩ := ih st
      rw [show cumulStep st y = st from by simp [cumulStep, hm]]
      exact ⟨extra, hx1, fun e he => List.mem_cons_of_mem _ (hx2 e he)⟩
    · obtain ⟨extra, hx1, hx2⟩ := ih (st.1 ++ [y], st.2 ++ [y.entry.id])
      rw [show cumulStep st y = (st.1 ++ [y], st.2 ++ [y.entry.id]) from by
        simp [cumulStep, hm]]
      refine ⟨[y] ++ extra, ?_, ?_⟩
      · simp [hx1]
      · intro e he
        rcases List.mem_append.mp he with he | he
        · simp only [List.mem_singleton] at he
          subst he
          exact List.mem_cons_self _ _
        · exact List.mem_cons_of_mem _ (hx2 e he)

/-- Every id of the merged accumulator comes from the previous accumulator or
from the year's entries. -/
lemma foldl_cumulStep_subset (ys : List Enriched) :
    ∀ (st : List Enriched × List String) (i : String), i ∈ (ys.foldl cumulStep st).2 →
      i ∈ st.2 ∨ i ∈ entryIds ys := by
  induction ys with
  | nil => intro st i h; exact Or.inl (by simpa using h)
  | cons y tl ih =>
    intro st i h
    simp only [List.foldl_cons] at h
    by_cases hm : y.entry.id ∈ st.2
    · rw [show cumulStep st y = st from by simp [cumulStep, hm]] at h
      rcases ih st i h with h' | h'
      · exact Or.inl h'
      · refine Or.inr ?_
        simp only [entryIds, List.map_cons, List.mem_cons]
        exact Or.inr (by simpa [entryIds] using h')
    · rw [show cumulStep st y = (st.1 ++ [y], st.2 ++ [y.entry.id]) from by
        simp [cumulStep, hm]] at h
      rcases ih _ i h with h' | h'
      · rcases List.mem_append.mp h' with h'' | h''
        · exact Or.inl h''
        · simp only [List.mem_singleton] at h''
          subst h''
          exact Or.inr (by simp [entryIds])
      · refine Or.inr ?_
        simp only [entryIds, List.map_cons, List.mem_cons]
        exact Or.inr (by simpa [entryIds] using h')

/-- When no id of `ys` collides with the accumulated ids and `ys` itself has
no duplicate ids, the cumulative merge appends all of `ys` verbatim. -/
lemma foldl_cumulStep_all (ys : List Enriched) :
    ∀ st : List Enriched × List String, (entryIds ys).Nodup →
      (∀ y ∈ ys, y.entry.id ∉ st.2) →
      ys.foldl cumulStep st = (st.1 ++ ys, st.2 ++ entryIds ys) := by
  induction ys with
  | nil => intro st _ _; simp [entryIds]
  | cons y tl ih =>
    intro st hnd hdisj
    have hm : y.entry.id ∉ st.2 := hdisj y (List.mem_cons_self _ _)
    simp only [List.foldl_cons]
    rw [show cumulStep st y = (st.1 ++ [y], st.2 ++ [y.entry.id]) from by
      simp [cumulStep, hm]]
    have hnd' : (entryIds tl).Nodup := by
      simpa [entryIds] using hnd.of_cons
    have hy : y.entry.id ∉ entryIds tl := by
      have := hnd
      simp only [entryIds, List.map_cons, List.nodup_cons] at this
      simpa [entryIds] using this.1
    have hdisj' : ∀ z ∈ tl, z.entry.id ∉ st.2 ++ [y.entry.id] := by
      intro z hz
      simp only [List.mem_append, List.mem_singleton]
      rintro (hc | hc)
      · exact hdisj z (List.mem_cons_of_mem _ hz) hc
      · exact hy (hc ▸ List.mem_map_of_mem (fun e => e.entry.id) hz)
    rw [ih _ hnd' hdisj']
    simp [entryIds]

/-- C5: merging a year's results into the cumulative accumulator (lines
421-426) preserves the invariant: the merged output has no two entries with
the same id, every id in it comes from the input collection (given that both
the previous accumulator's and the year's ids do), and the entries already
present are kept verbatim as a prefix — an id already present is never
overwritten by a later entry. -/
theorem c5_cumulative_invariant (all_processed year_processed : List Enriched)
    (inputIds : List String)
    (h1 : (entryIds all_processed).Nodup)
    (h2 : ∀ i ∈ entryIds all_processed, i ∈ inputIds)
    (h3 : ∀ i ∈ entryIds year_processed, i ∈ inputIds) :
    (entryIds (addYearToCumulative all_processed year_processed)).Nodup
    ∧ (∀ i ∈ entryIds (addYearToCumulative all_processed year_processed), i ∈ inputIds)
    ∧ (addYearToCumulative all_processed year_processed).take all_processed.length
        = all_processed := by
  have hids := foldl_cumulStep_ids year_processed (all_processed, entryIds all_processed) rfl
  refine ⟨?_, ?_, ?_⟩
  · unfold addYearToCumulative
    rw [← hids]
    exact foldl_cumulStep_nodup year_processed _ h1
  · intro i hi
    unfold addYearToCumulative at hi
    rw [← hids] at hi
    rcases foldl_cumulStep_subset year_processed _ i hi with h' | h'
    · exact h2 i h'
    · exact h3 i h'
  · obtain ⟨extra, he1, _⟩ :=
      foldl_cumulStep_append year_processed (all_processed, entryIds all_processed)
    unfold addYearToCumulative
    rw [he1]
    exact List.take_left _ _

/-- C5 witness. -/
theorem c5_witness :
    (entryIds (addYearToCumulative [eA] [eA, eB])).Nodup
    ∧ (addYearToCumulative [eA] [eA, eB]).take [eA].length = [eA] :=
  ⟨(c5_cumulative_invariant [eA] [eA, eB] ["0", "1"] (by decide) (by decide) (by decide)).1,
   (c5_cumulative_invariant [eA] [eA, eB] ["0", "1"] (by decide) (by decide) (by decide)).2.2⟩

/-- C7: when the COMPLETE marker exists, a resume run returns its contents
verbatim without touching the services or the files (the result does not
depend on `svc` at all — zero annotation/embedding calls), and merging those
entries into an empty cumulative accumulator reuses them verbatim. -/
theorem c7_complete_marker (fs : FS) (es : List Enriched)
    (h : fs.processedFile = some es) :
    (∀ (svc : Services) (ye : List Record) (bsz : Int),
        process_year_entries svc fs ye bsz true = .ok (fs, es))
    ∧ ((entryIds es).Nodup → addYearToCumulative [] es = es) := by
  constructor
  · intro svc ye bsz
    unfold process_year_entries
    simp [is_year_processed, load_processed_year, h]
  · intro hnd
    unfold addYearToCumulative
    rw [foldl_cumulStep_all es ([], entryIds []) hnd (by simp [entryIds])]
    simp

/-- C7 witness. -/
theorem c7_witness :
    process_year_entries svcNone ⟨some [eA], []⟩ [rA, rB] 20 true
      = .ok (⟨some [eA], []⟩, [eA])
    ∧ addYearToCumulative [] [eA] = [eA] :=
  ⟨(c7_complete_marker ⟨some [eA], []⟩ [eA] rfl).1 svcNone [rA, rB] 20,
   (c7_complete_marker ⟨some [eA], []⟩ [eA] rfl).2 (by decide)⟩

/-- C6: resuming a group with no COMPLETE marker but an existing (readable)
highest batch file `k` loads that file's entries as the starting accumulator
and runs the loop over `year_entries[k*batch_size:]` only — records before
position `k*batch_size` are not reprocessed — and the first iteration
carries batch number `k + 1`. -/
theorem c6_resume_from_last_batch (svc : Services) (fs : FS) (ye : List Record)
    (bsz : Int) (k : Nat) (es : List Enriched)
    (h1 : fs.processedFile = none) (h2 : find_last_batch fs = k) (h3 : 0 < k)
    (h4 : loadBatchFile fs k = some es) (h5 : 0 < bsz) :
    process_year_entries svc fs ye bsz true
      = runYearLoop svc fs (ye.drop (k * bsz.toNat)) (k * bsz.toNat) bsz.toNat es
    ∧ (k * bsz.toNat + 0) / bsz.toNat + 1 = k + 1 := by
  have hb : 0 < bsz.toNat := by omega
  have hrs : resumeState fs true = (k, es) := by
    unfold resumeState
    simp [h2, h3, h4]
  constructor
  · have h0 : ¬ (bsz = 0) := by omega
    have hneg : ¬ (bsz < 0) := by omega
    unfold process_year_entries
    simp [is_year_processed, h1, hrs, h0, hneg]
  · simp [Nat.mul_div_cancel _ hb]

/-- C6 witness. -/
theorem c6_witness :
    process_year_entries svcNone ⟨none, [(1, some [eA])]⟩ [rA, rB, rC] 2 true
      = runYearLoop svcNone ⟨none, [(1, some [eA])]⟩
          ([rA, rB, rC].drop (1 * (2 : Int).toNat)) (1 * (2 : Int).toNat)
          (2 : Int).toNat [eA]
    ∧ (1 * (2 : Int).toNat + 0) / (2 : Int).toNat + 1 = 1 + 1 :=
  c6_resume_from_last_batch svcNone ⟨none, [(1, some [eA])]⟩ [rA, rB, rC] 2 1 [eA]
    rfl rfl (by decide) rfl (by decide)

/-- C10: when the highest-numbered batch file exists but cannot be read or
parsed, the resume run does not abort — it behaves exactly like a fresh
(non-resume) run: empty starting accumulator, loop from the group's first
record (start index 0, first batch number 1). -/
theorem c10_unreadable_batch_file (svc : Services) (fs : FS) (ye : List Record)
    (bsz : Int) (k : Nat)
    (h1 : fs.processedFile = none) (h2 : find_last_batch fs = k) (h3 : 0 < k)
    (h4 : loadBatchFile fs k = none) :
    process_year_entries svc fs ye bsz true = process_year_entries svc fs ye bsz false
    ∧ (0 < bsz → process_year_entries svc fs ye bsz true
        = runYearLoop svc fs ye 0 bsz.toNat []) := by
  have hrs : resumeState fs true = (0, []) := by
    unfold resumeState
    simp [h2, h3, h4]
  have hrs' : resumeState fs false = (0, []) := by
    unfold resumeState
    simp
  constructor
  · unfold process_year_entries
    simp [is_year_processed, h1, hrs, hrs']
  · intro hpos
    have h0 : ¬ (bsz = 0) := by omega
    have hneg : ¬ (bsz < 0) := by omega
    unfold process_year_entries
    simp [is_year_processed, h1, hrs, h0, hneg]

/-- C10 witness. -/
theorem c10_witness :
    process_year_entries svcNone ⟨none, [(2, none)]⟩ [rA] 3 true
      = process_year_entries svcNone ⟨none, [(2, none)]⟩ [rA] 3 false
    ∧ process_year_entries svcNone ⟨none, [(2, none)]⟩ [rA] 3 true
      = runYearLoop svcNone ⟨none, [(2, none)]⟩ [rA] 0 (3 : Int).toNat [] :=
  ⟨(c10_unreadable_batch_file svcNone ⟨none, [(2, none)]⟩ [rA] 3 2 rfl rfl (by decide) rfl).1,
   (c10_unreadable_batch_file svcNone ⟨none, [(2, none)]⟩ [rA] 3 2 rfl rfl (by decide) rfl).2
     (by decide)⟩

/-- C9: the response normalization of `analyze_entries_batch` probes, in
fixed priority order, the wrapper keys `"results"`, `"data"`, `"entries"`
(a bare array is returned as-is, and can never satisfy a dict probe, so its
place in the chain is unobservable); failing all of those it scans the
object's fields in order for the first array value; and if no array is found
anywhere it returns the empty sequence at once — the retry loop performs no
further attempt in that case, whatever attempts would remain. -/
theorem c9_response_normalization (fields : List (String × Json)) (xs : List Json)
    (rest : List Attempt) (v : Json) :
    (jLookup fields "results" = some v → normalize_response (.obj fields) = .ok v)
    ∧ (jLookup fields "results" = none → jLookup fields "data" = some v →
        normalize_response (.obj fields) = .ok v)
    ∧ (jLookup fields "results" = none → jLookup fields "data" = none →
        jLookup fields "entries" = some v → normalize_response (.obj fields) = .ok v)
    ∧ normalize_response (.arr xs) = .ok (.arr xs)
    ∧ (jLookup fields "results" = none → jLookup fields "data" = none →
        jLookup fields "entries" = none → firstArrayField fields = some v →
        normalize_response (.obj fields) = .ok v)
    ∧ (jLookup fields "results" = none → jLookup fields "data" = none →
        jLookup fields "entries" = none → firstArrayField fields = none →
        normalize_response (.obj fields) = .ok (.arr []))
    ∧ (jLookup fields "results" = none → jLookup fields "data" = none →
        jLookup fields "entries" = none → firstArrayField fields = none →
        analyzeRetryLoop (.parsed (.obj fields) :: rest) = some (.arr [])) := by
  refine ⟨?_, ?_, ?_, rfl, ?_, ?_, ?_⟩ <;>
    intros <;>
    simp_all [normalize_response, analyzeRetryLoop]

/-- C9 witness: a reply wrapped under `"data"` (with `"results"` absent) is
unwrapped, and a reply that is an object with no array anywhere yields the
empty sequence with the remaining retry attempt unused. -/
theorem c9_witness :
    normalize_response (.obj [("status", .prim "ok"), ("data", .arr [])]) = .ok (.arr [])
    ∧ analyzeRetryLoop [.parsed (.obj [("note", .prim "x")]), .transportErr]
        = some (.arr []) :=
  ⟨(c9_response_normalization [("status", .prim "ok"), ("data", .arr [])] [] []
      (.arr [])).2.1 rfl rfl,
   (c9_response_normalization [("note", .prim "x")] [] [.transportErr]
      (.arr [])).2.2.2.2.2.2 rfl rfl rfl rfl⟩

/-- Inserting a record for key `y` extends exactly the group of `y`
(creating it at the end when absent) and leaves every other group alone. -/
lemma groupGet_addToGroups (y : String) (e : Record) :
    ∀ (gs : List (String × List Record)) (z : String),
      groupGet (addToGroups gs y e) z
        = if z = y then groupGet gs z ++ [e] else groupGet gs z := by
  intro gs
  induction gs with
  | nil =>
    intro z
    by_cases h : z = y
    · subst h
      simp [addToGroups, groupGet]
    · have h' : ¬ (y = z) := fun hc => h hc.symm
      simp [addToGroups, groupGet, h, h']
  | cons p rest ih =>
    obtain ⟨k, l⟩ := p
    intro z
    by_cases hk : k = y
    · subst hk
      by_cases hz : z = k
      · subst hz
        simp [addToGroups, groupGet]
      · have hz' : ¬ (k = z) := fun hc => hz hc.symm
        simp [addToGroups, groupGet, hz, hz']
    · by_cases hz : z = k
      · subst hz
        have hzy : ¬ (z = y) := fun hc => hk (hc ▸ rfl)
        simp [addToGroups, groupGet, hk, hzy]
      · have hz' : ¬ (k = z) := fun hc => hz hc.symm
        simp [addToGroups, groupGet, hk, hz', ih]

/-- Folding the grouping step over `entries` appends, groupwise, exactly the
records of each year in input order. -/
lemma groupGet_fold (z : String) :
    ∀ (entries : List Record) (gs : List (String × List Record)),
      groupGet (entries.foldl (fun g e => addToGroups g (yearOf e.date) e) gs) z
        = groupGet gs z ++ entries.filter (fun e => yearOf e.date == z) := by
  intro entries
  induction entries with
  | nil => intro gs; simp
  | cons e tl ih =>
    intro gs
    simp only [List.foldl_cons]
    rw [ih, groupGet_addToGroups]
    by_cases h : z = yearOf e.date
    · simp [h, List.filter_cons]
    · have h2 : ¬ (yearOf e.date = z) := fun hc => h hc.symm
      simp [h, h2, List.filter_cons]

/-- Inserting a record either leaves the key list unchanged (key present) or
appends the new key at the end. -/
lemma keys_addToGroups (y : String) (e : Record) :
    ∀ gs : List (String × List Record),
      (addToGroups gs y e).map Prod.fst
        = if y ∈ gs.map Prod.fst then gs.map Prod.fst else gs.map Prod.fst ++ [y] := by
  intro gs
  induction gs with
  | nil => simp [addToGroups]
  | cons p rest ih =>
    obtain ⟨k, l⟩ := p
    by_cases h : k = y
    · subst h
      simp [addToGroups]
    · have h' : ¬ (y = k) := fun hc => h hc.symm
      by_cases hm : y ∈ rest.map Prod.fst <;>
        simp [addToGroups, h, h', ih, hm]

/-- Membership in the key list after an insertion. -/
lemma mem_keys_addToGroups (y z : String) (e : Record)
    (gs : List (String × List Record)) :
    z ∈ (addToGroups gs y e).map Prod.fst ↔ z ∈ gs.map Prod.fst ∨ z = y := by
  rw [keys_addToGroups]
  by_cases hm : y ∈ gs.map Prod.fst
  · rw [if_pos hm]
    constructor
    · exact Or.inl
    · rintro (h | rfl)
      · exact h
      · exact hm
  · rw [if_neg hm]
    simp

/-- Grouping never duplicates a key. -/
lemma keys_nodup_fold :
    ∀ (entries : List Record) (gs : List (String × List Record)),
      (gs.map Prod.fst).Nodup →
      ((entries.foldl (fun g e => addToGroups g (yearOf e.date) e) gs).map Prod.fst).Nodup := by
  intro entries
  induction entries with
  | nil => intro gs h; simpa using h
  | cons e tl ih =>
    intro gs h
    simp only [List.foldl_cons]
    refine ih _ ?_
    rw [keys_addToGroups]
    by_cases hm : yearOf e.date ∈ gs.map Prod.fst
    · rwa [if_pos hm]
    · rw [if_neg hm]
      simp [List.nodup_append, h, hm]

/-- The grouped keys are exactly the years occurring in the input. -/
lemma keys_mem_fold (z : String) :
    ∀ (entries : List Record) (gs : List (String × List Record)),
      (z ∈ (entries.foldl (fun g e => addToGroups g (yearOf e.date) e) gs).map Prod.fst
        ↔ z ∈ gs.map Prod.fst ∨ z ∈ entries.map (fun e => yearOf e.date)) := by
  intro entries
  induction entries with
  | nil => intro gs; simp
  | cons e tl ih =>
    intro gs
    simp only [List.foldl_cons]
    rw [ih, mem_keys_addToGroups]
    simp only [List.map_cons, List.mem_cons]
    tauto

/-- With a duplicate-free key list, the stored groups are the lookups of the
keys, in key order. -/
lemma map_snd_eq_keys_map_groupGet :
    ∀ gs : List (String × List Record), (gs.map Prod.fst).Nodup →
      gs.map Prod.snd = (gs.map Prod.fst).map (groupGet gs) := by
  intro gs
  induction gs with
  | nil => intro _; rfl
  | cons p rest ih =>
    obtain ⟨k, l⟩ := p
    intro h
    simp only [List.map_cons]
    congr 1
    · simp [groupGet]
    · rw [ih (List.nodup_cons.mp h).2]
      apply List.map_congr_left
      intro z hz
      have hkz : ¬ (k = z) := fun hc => (List.nodup_cons.mp h).1 (hc ▸ hz)
      simp [groupGet, hkz]

/-- Partitioning a list by the fibers of `f` over a duplicate-free key list
covering all its values is a permutation of the list. -/
lemma flatten_map_filter_perm {α : Type} (f : α → String) :
    ∀ ys : List String, ys.Nodup → ∀ l : List α, (∀ a ∈ l, f a ∈ ys) →
      List.Perm ((ys.map (fun y => l.filter (fun a => f a == y))).flatten) l := by
  intro ys
  induction ys with
  | nil =>
    intro _ l hl
    have hempty : l = [] :=
      List.eq_nil_iff_forall_not_mem.mpr (fun a ha => by simpa using hl a ha)
    subst hempty
    simp
  | cons y ytl ih =>
    intro hnd l hl
    simp only [List.map_cons, List.flatten_cons]
    have hrw : ytl.map (fun z => l.filter (fun a => f a == z))
        = ytl.map (fun z => (l.filter (fun a => !(f a == y))).filter (fun a => f a == z)) := by
      apply List.map_congr_left
      intro z hz
      have hzy : z ≠ y := fun hc => (List.nodup_cons.mp hnd).1 (hc ▸ hz)
      rw [List.filter_filter]
      apply List.filter_congr
      intro a _
      by_cases hfa : f a = z
      · simp [hfa, hzy]
      · simp [hfa]
    rw [hrw]
    have hsub : ∀ a ∈ l.filter (fun a => !(f a == y)), f a ∈ ytl := by
      intro a ha
      rw [List.mem_filter] at ha
      have h1 := hl a ha.1
      have h2 : ¬ (f a = y) := by simpa using ha.2
      simp only [List.mem_cons] at h1
      tauto
    have hperm := ih (List.nodup_cons.mp hnd).2 (l.filter (fun a => !(f a == y))) hsub
    exact List.Perm.trans (List.Perm.append_left _ hperm) (List.filter_append_perm _ l)

/-- `range(0, 0, bs)` is empty. -/
lemma batchIdxs_zero (bs : Nat) (h : 0 < bs) : batchIdxs 0 bs = [] := by
  unfold batchIdxs
  have hdiv : (0 + bs - 1) / bs = 0 := Nat.div_eq_of_lt (by omega)
  rw [hdiv]
  simp

/-- For a non-empty list, the loop indices are `0` followed by the indices
for the remainder shifted by one batch. -/
lemma batchIdxs_succ (n bs : Nat) (hb : 0 < bs) (hn : 0 < n) :
    batchIdxs n bs = 0 :: (batchIdxs (n - bs) bs).map (· + bs) := by
  have hcount : (n + bs - 1) / bs = (n - bs + bs - 1) / bs + 1 := by
    rcases le_or_lt n bs with hle | hlt
    · have h1 : n - bs = 0 := by omega
      rw [h1]
      have h2 : (0 + bs - 1) / bs = 0 := Nat.div_eq_of_lt (by omega)
      rw [h2]
      have h3 : n + bs - 1 = (n - 1) + bs := by omega
      rw [h3, Nat.add_div_right _ hb]
      have h4 : (n - 1) / bs = 0 := Nat.div_eq_of_lt (by omega)
      rw [h4]
    · have h3 : n + bs - 1 = (n - 1) + bs := by omega
      have h5 : n - bs + bs - 1 = (n - bs - 1) + bs := by omega
      rw [h3, h5, Nat.add_div_right _ hb, Nat.add_div_right _ hb]
      have h6 : n - 1 = (n - bs - 1) + bs := by omega
      rw [h6, Nat.add_div_right _ hb]
  unfold batchIdxs
  rw [hcount, List.range_succ_eq_map]
  simp [List.map_map, Function.comp_def, Nat.succ_mul, Nat.add_comm]

/-- Concatenating the batch slices of a list gives the list back (positive
batch size); `fuel` bounds the length for the induction. -/
lemma flatten_sliceBatches_fuel {bs : Nat} (hb : 0 < bs) :
    ∀ (fuel : Nat) (l : List Record), l.length ≤ fuel →
      (sliceBatches l bs).flatten = l := by
  intro fuel
  induction fuel with
  | zero =>
    intro l hl
    have hempty : l = [] := by
      cases l with
      | nil => rfl
      | cons a tl => simp at hl
    subst hempty
    simp [sliceBatches, batchIdxs_zero _ hb]
  | succ m ih =>
    intro l hl
    cases l with
    | nil => simp [sliceBatches, batchIdxs_zero _ hb]
    | cons a tl =>
      have hn : 0 < (a :: tl).length := by simp
      unfold sliceBatches
      rw [batchIdxs_succ _ _ hb hn]
      simp only [List.map_cons, List.flatten_cons, List.drop_zero, List.map_map]
      have hmap : (batchIdxs ((a :: tl).length - bs) bs).map
            ((fun i => ((a :: tl).drop i).take bs) ∘ (· + bs))
          = (batchIdxs (((a :: tl).drop bs).length) bs).map
            (fun i => (((a :: tl).drop bs).drop i).take bs) := by
        have hlen : ((a :: tl).drop bs).length = (a :: tl).length - bs := by simp
        rw [hlen]
        apply List.map_congr_left
        intro i _
        simp only [Function.comp_apply]
        rw [List.drop_drop, Nat.add_comm i bs]
      rw [hmap]
      have htail : (batchIdxs (((a :: tl).drop bs).length) bs).map
            (fun i => (((a :: tl).drop bs).drop i).take bs)
          = sliceBatches ((a :: tl).drop bs) bs := rfl
      rw [htail]
      rw [ih ((a :: tl).drop bs) (by simp at hl ⊢; omega)]
      exact List.take_append_drop bs (a :: tl)

/-- Concatenating the batch slices of a list gives the list back. -/
lemma flatten_sliceBatches {bs : Nat} (hb : 0 < bs) (l : List Record) :
    (sliceBatches l bs).flatten = l :=
  flatten_sliceBatches_fuel hb l.length l (Nat.le_refl _)

/-- C8: grouping by year keeps each group equal to the input filtered to that
year (input order preserved, nothing dropped or duplicated within a group);
the concatenation of all groups is a permutation of the input (total record
multiset preserved); and flattening every group's batch slices in ascending
year order reconstructs exactly the stable year-sorted ordering of the
original collection, with the total count preserved. -/
theorem c8_partition_completeness (entries : List Record) (bs : Nat) (h : 0 < bs) :
    (∀ y : String, groupGet (group_entries_by_year entries) y
        = entries.filter (fun e => yearOf e.date == y))
    ∧ ((group_entries_by_year entries).map Prod.fst).Nodup
    ∧ (∀ y : String, y ∈ (group_entries_by_year entries).map Prod.fst
        ↔ y ∈ entries.map (fun e => yearOf e.date))
    ∧ List.Perm ((group_entries_by_year entries).map Prod.snd).flatten entries
    ∧ ((pySorted ((group_entries_by_year entries).map Prod.fst)).map
          (fun y => (sliceBatches (groupGet (group_entries_by_year entries) y) bs).flatten)).flatten
        = yearSortedStable entries
    ∧ List.Perm (yearSortedStable entries) entries
    ∧ (yearSortedStable entries).length = entries.length := by
  have hget : ∀ y : String, groupGet (group_entries_by_year entries) y
      = entries.filter (fun e => yearOf e.date == y) := by
    intro y
    unfold group_entries_by_year
    rw [groupGet_fold]
    simp [groupGet]
  have hnd : ((group_entries_by_year entries).map Prod.fst).Nodup := by
    unfold group_entries_by_year
    exact keys_nodup_fold entries [] (by simp)
  have hmem : ∀ y : String, y ∈ (group_entries_by_year entries).map Prod.fst
      ↔ y ∈ entries.map (fun e => yearOf e.date) := by
    intro y
    unfold group_entries_by_year
    rw [keys_mem_fold]
    simp
  have hcover : ∀ e ∈ entries,
      yearOf e.date ∈ (group_entries_by_year entries).map Prod.fst := by
    intro e he
    rw [hmem]
    exact List.mem_map_of_mem _ he
  have hperm : List.Perm ((group_entries_by_year entries).map Prod.snd).flatten entries := by
    rw [map_snd_eq_keys_map_groupGet _ hnd]
    have hco : ((group_entries_by_year entries).map Prod.fst).map
          (groupGet (group_entries_by_year entries))
        = ((group_entries_by_year entries).map Prod.fst).map
            (fun y => entries.filter (fun e => yearOf e.date == y)) := by
      apply List.map_congr_left
      intro y _
      exact hget y
    rw [hco]
    exact flatten_map_filter_perm _ _ hnd entries hcover
  have hsortnd : (pySorted ((group_entries_by_year entries).map Prod.fst)).Nodup :=
    ((List.perm_insertionSort _ _).symm).nodup hnd
  have hsortmem : ∀ e ∈ entries,
      yearOf e.date ∈ pySorted ((group_entries_by_year entries).map Prod.fst) := by
    intro e he
    unfold pySorted
    rw [(List.perm_insertionSort _ _).mem_iff]
    exact hcover e he
  have hstable : ((pySorted ((group_entries_by_year entries).map Prod.fst)).map
        (fun y => (sliceBatches (groupGet (group_entries_by_year entries) y) bs).flatten)).flatten
      = yearSortedStable entries := by
    unfold yearSortedStable
    congr 1
    apply List.map_congr_left
    intro y _
    rw [flatten_sliceBatches h, hget y]
  have hperm2 : List.Perm (yearSortedStable entries) entries := by
    unfold yearSortedStable
    exact flatten_map_filter_perm (fun e => yearOf e.date) _ hsortnd entries hsortmem
  exact ⟨hget, hnd, hmem, hperm, hstable, hperm2, hperm2.length_eq⟩

/-- C8 witness: a three-record collection spanning two years, batch size 2. -/
theorem c8_witness :
    groupGet (group_entries_by_year [rA, rD, rB]) "1976"
      = [rA, rD, rB].filter (fun e => yearOf e.date == "1976")
    ∧ ((pySorted ((group_entries_by_year [rA, rD, rB]).map Prod.fst)).map
          (fun y => (sliceBatches (groupGet (group_entries_by_year [rA, rD, rB]) y) 2).flatten)).flatten
        = yearSortedStable [rA, rD, rB]
    ∧ (yearSortedStable [rA, rD, rB]).length = [rA, rD, rB].length :=
  ⟨(c8_partition_completeness [rA, rD, rB] 2 (by decide)).1 "1976",
   (c8_partition_completeness [rA, rD, rB] 2 (by decide)).2.2.2.2.1,
   (c8_partition_completeness [rA, rD, rB] 2 (by decide)).2.2.2.2.2.2⟩

end Warhol
